import Mathlib

/-
  Verification development for scripts/convert_run.py (LCLS run converter).

  The embedding below translates the algorithmic core of the script:
  the index resolver and selection engine of export_dp_para
  (lines 99-165), the probe synthesis (lines 153-161), and the geometry
  run-range resolver value_for_run (lines 179-189) together with its call
  sites in main (lines 242-243).

  Python floats are idealised as exact rationals in the selection layer
  and as real numbers in the probe-synthesis layer (the code casts the
  first frame with astype(np.float64) before the transform, and the final
  astype(np.complex64) precision cast is idealised as the identity).
  Arrays are nested lists.  The object indexed at lines 129 and 132 is an
  h5py Dataset, not an ndarray (np.asarray is applied only afterwards at
  line 134), so the row gather is modelled with h5py fancy-selection
  semantics: the coordinate list must be strictly increasing (an unsorted
  or duplicated list raises TypeError), and a negative or out-of-range
  coordinate raises instead of wrapping around.
-/

/-- Decidable equality for Except values, used to evaluate the embedded
functions at concrete inputs. -/
instance {ε α : Type} [DecidableEq ε] [DecidableEq α] : DecidableEq (Except ε α) := fun a b =>
  match a, b with
  | .error e₁, .error e₂ =>
    match decEq e₁ e₂ with
    | isTrue h => isTrue (by rw [h])
    | isFalse h => isFalse (fun hh => h (by injection hh))
  | .error _, .ok _ => isFalse (fun hh => Except.noConfusion hh)
  | .ok _, .error _ => isFalse (fun hh => Except.noConfusion hh)
  | .ok a₁, .ok a₂ =>
    match decEq a₁ a₂ with
    | isTrue h => isTrue (by rw [h])
    | isFalse h => isFalse (fun hh => h (by injection hh))

namespace ConvertRun

/-! ## Index resolver (export_dp_para, lines 119-132) -/

/-- Embeds the dictionary built at line 127,
`lookup = \x7bint(v): i for i, v in enumerate(indexes.tolist())\x7d`,
queried at key `v`.  Dict insertion runs left to right and a duplicate key
overwrites the earlier entry, so the lookup returns the row offset of the
LAST occurrence of `v` in `indexes`.  (The code comment at line 126 claims
the first occurrence is preferred; the comprehension does the opposite.) -/
def dictLookup : List Int → Int → Option Nat
  | [], _ => none
  | w :: ws, v =>
    match dictLookup ws v with
    | some i => some (i + 1)
    | none => if w = v then some 0 else none

/-- Embeds line 128, `rows = [lookup[int(v)] for v in pos_idx]`: resolve
every requested position index to a row offset, failing with the first
requested value missing from the dict (the KeyError payload). -/
def resolveRows (indexes : List Int) : List Int → Except Int (List Nat)
  | [] => .ok []
  | v :: vs =>
    match dictLookup indexes v with
    | none => .error v
    | some i =>
      match resolveRows indexes vs with
      | .error w => .error w
      | .ok rows => .ok (i :: rows)

/-- Failure modes of the selection step: a KeyError raised at line 128 by
a requested value absent from the index dict; the TypeError raised by
h5py fancy selection when the coordinate list is not strictly increasing;
or a negative or out-of-range coordinate in the Dataset indexing at
lines 129/132. -/
inductive SelErr where
  | keyError (v : Int)
  | typeError
  | indexError
deriving DecidableEq

/-- The h5py fancy-selection order check: coordinates must be strictly
increasing, so an unsorted or duplicated list is rejected. -/
def strictIncr : List Int → Bool
  | [] => true
  | [_] => true
  | v :: w :: rest => decide (v < w) && strictIncr (w :: rest)

/-- One coordinate of an h5py Dataset fancy selection: a coordinate `v`
selects row `v` when `0 ≤ v < N`; a negative or out-of-range coordinate
raises (h5py fancy selection does not wrap negative entries the way
ndarray indexing does). -/
def hpyTake {F : Type} (patterns : List F) (v : Int) : Option F :=
  if 0 ≤ v then patterns.get? v.toNat else none

/-- Row retrieval of an already-validated h5py fancy selection: one row
per coordinate, in coordinate order; any bad coordinate raises. -/
def hpyGatherGo {F : Type} (patterns : List F) : List Int → Except SelErr (List F)
  | [] => .ok []
  | v :: vs =>
    match hpyTake patterns v with
    | none => .error .indexError
    | some f =>
      match hpyGatherGo patterns vs with
      | .error e => .error e
      | .ok fs => .ok (f :: fs)

/-- h5py Dataset fancy indexing `patterns[vs, ...]` (lines 129 and 132):
the coordinate list must be strictly increasing, otherwise a TypeError is
raised; a valid selection yields the rows in coordinate order. -/
def hpyGather {F : Type} (patterns : List F) (vs : List Int) : Except SelErr (List F) :=
  if strictIncr vs = true then hpyGatherGo patterns vs
  else .error .typeError

/-- Embeds the selection branch of export_dp_para (lines 122-132): in
mapped mode (an `indexes` field is present) resolve each requested value
through the dict and gather those rows from the patterns Dataset;
otherwise (identity mode) use the requested values directly as Dataset
coordinates. -/
def selectPatterns {F : Type} (indexes? : Option (List Int)) (patterns : List F)
    (posIdx : List Int) : Except SelErr (List F) :=
  match indexes? with
  | some indexes =>
    match resolveRows indexes posIdx with
    | .error v => .error (.keyError v)
    | .ok rows => hpyGather patterns (rows.map Int.ofNat)
  | none => hpyGather patterns posIdx

/-- The row-offset list the mapped mode hands to the Dataset gather: the
dict image of the requested values, as integer coordinates. -/
def resolvedRows (indexes req : List Int) : List Int :=
  (req.map (fun v => (dictLookup indexes v).getD 0)).map Int.ofNat

/-! ## Sanitization (lines 133-135) -/

/-- Elementwise clamp of line 135, `np.where(dp < 0, 0.0, dp)`. -/
def clampNeg (x : ℚ) : ℚ := if x < 0 then 0 else x

/-- The sanitization applied to the whole selected 3-d array `dp`. -/
def sanitize (dp : List (List (List ℚ))) : List (List (List ℚ)) :=
  dp.map (fun frame => frame.map (fun row => row.map clampNeg))

/-! ## Probe synthesis (lines 150-161) -/

/-- Embeds lines 154-155: `dp0 = dp[0].astype(np.float64)` followed by
`amp = np.sqrt(dp0 + 1e-12)`, elementwise over the first selected frame. -/
noncomputable def ampOf (dp0 : List (List ℚ)) : List (List ℝ) :=
  dp0.map (fun (row : List ℚ) =>
    row.map (fun (x : ℚ) => Real.sqrt ((x : ℝ) + 1e-12)))

/-- `np.fft.ifftshift` on a 2-d array: roll each axis by the negation of
half its length, so entry `(i, j)` of the result is entry
`((i + H / 2) % H, (j + W / 2) % W)` of the input. -/
def ifftshift2 {α : Type} (d : α) (m : List (List α)) : List (List α) :=
  (List.range m.length).map (fun i =>
    (List.range (m.getD 0 []).length).map (fun j =>
      (m.getD ((i + m.length / 2) % m.length) []).getD
        ((j + (m.getD 0 []).length / 2) % (m.getD 0 []).length) d))

/-- The inverse 2-d discrete Fourier transform computed by
`np.fft.ifft2` on an `H × W` array:
entry `(k, l)` is the double sum of `m[n][p] * exp(2 pi I (k n / H + l p / W))`
scaled by `1 / (H \cdot W)`. -/
noncomputable def idft2 (m : List (List ℂ)) : List (List ℂ) :=
  (List.range m.length).map (fun (k : ℕ) =>
    (List.range (m.getD 0 []).length).map (fun (l : ℕ) =>
      ((m.length : ℂ) * ((m.getD 0 []).length : ℂ))⁻¹ *
        ∑ n ∈ Finset.range m.length, ∑ p ∈ Finset.range (m.getD 0 []).length,
          (m.getD n []).getD p 0 *
            Complex.exp (2 * Real.pi * Complex.I *
              ((k : ℂ) * (n : ℂ) / (m.length : ℂ) +
                (l : ℂ) * (p : ℂ) / ((m.getD 0 []).length : ℂ)))))

/-- Promotion of a real 2-d array to a complex one, as numpy does before
an inverse FFT of real input. -/
def toComplexRows (m : List (List ℝ)) : List (List ℂ) :=
  m.map (fun (row : List ℝ) => row.map (fun (x : ℝ) => (x : ℂ)))

/-- Embeds lines 154-157: the synthesized probe
`np.fft.ifft2(np.fft.ifftshift(amp))[None, None, ...]` built from the
first selected (sanitized) frame; the `astype(np.complex64)` precision
cast is idealised as the identity. -/
noncomputable def probeGuess (dp0 : List (List ℚ)) : List (List (List (List ℂ))) :=
  [[idft2 (toComplexRows (ifftshift2 0 (ampOf dp0)))]]

/-- Modelled from the spec (section 4.2, step 3): compute
`amplitude = sqrt(frame0 + 1e-12)`, undo the zero-frequency-centering
shift, apply the inverse 2-d discrete Fourier transform, and reshape the
result to a 4-d container with two leading singleton axes. -/
noncomputable def specSynthProbe (frame0 : List (List ℚ)) : List (List (List (List ℂ))) :=
  [[idft2 (toComplexRows (ifftshift2 0
      (frame0.map (fun (row : List ℚ) =>
        row.map (fun (x : ℚ) => Real.sqrt ((x : ℝ) + 1e-12))))))]]

/-! ## Output assembly of export_dp_para (lines 137-164) -/

/-- The dp output container: a single field `dp` holding the selected,
sanitized frame set (lines 138-140). -/
structure DpOut where
  dp : List (List (List ℚ))

/-- The para output container (lines 143-164): object passthrough, the
four optional pixel attributes, the probe (synthesized or passthrough),
and the position arrays; `pos_idx.astype(np.int64)` is idealised as the
identity on integers. -/
structure ParaOut where
  object : List (List ℂ)
  objAttrs : List (String × ℚ)
  probe : List (List (List (List ℂ)))
  probe_position_indexes : List Int
  probe_position_x_m : List ℚ
  probe_position_y_m : List ℚ

/-- Embeds lines 147-149: copy each of the four named attributes from the
object attributes when present; absent keys are omitted. -/
def copyAttrs (attrs : List (String × ℚ)) : List (String × ℚ) :=
  ["pixel_height_m", "pixel_width_m", "center_x_m", "center_y_m"].filterMap
    (fun k => (attrs.lookup k).map (fun v => (k, v)))

/-- Embeds the try/except around probe synthesis (lines 153-161): the
synthesis reads `dp[0]`, which raises on an empty selected set; the except
branch re-emits the upstream probe array verbatim. -/
noncomputable def probeOrFallback (dp : List (List (List ℚ)))
    (probeUp : List (List (List (List ℂ)))) : List (List (List (List ℂ))) :=
  match dp with
  | [] => probeUp
  | f0 :: _ => probeGuess f0

/-- Embeds the data transformations of export_dp_para (lines 99-165): the
selection of patterns (mapped or identity mode), the sanitization, and the
assembly of the dp and para containers.  A selection failure propagates
and no container is produced. -/
noncomputable def exportDpPara (posIdx : List Int) (posX posY : List ℚ)
    (probeUp : List (List (List (List ℂ)))) (obj : List (List ℂ))
    (objAttrs : List (String × ℚ)) (indexes? : Option (List Int))
    (patterns : List (List (List ℚ))) : Except SelErr (DpOut × ParaOut) :=
  match selectPatterns indexes? patterns posIdx with
  | .error e => .error e
  | .ok dpRaw =>
    let dp := sanitize dpRaw
    .ok (⟨dp⟩,
      { object := obj
        objAttrs := copyAttrs objAttrs
        probe := probeOrFallback dp probeUp
        probe_position_indexes := posIdx
        probe_position_x_m := posX
        probe_position_y_m := posY })

/-! ## Geometry metadata resolver (value_for_run, lines 179-189) -/

/-- One entry of a run-range geometry table: an optional `runs` bounds list
and an optional `value`, as read from the JSON/YAML config. -/
structure GeomEntry where
  runs : Option (List Int)
  value : Option ℚ
deriving DecidableEq

/-- The loop body of value_for_run (lines 182-188): skip an entry whose
`runs` spec is missing or does not have exactly two endpoints; on the first
entry whose inclusive bounds contain `run`, return its value (or the
fallback when the entry has no value); otherwise keep scanning. -/
def valueLoop : List GeomEntry → Int → ℚ → ℚ
  | [], _, fallback => fallback
  | e :: rest, run, fallback =>
    match e.runs with
    | some [s, t] =>
      if s ≤ run ∧ run ≤ t then e.value.getD fallback
      else valueLoop rest run fallback
    | _ => valueLoop rest run fallback

/-- Embeds value_for_run (lines 179-189); a missing or empty table
(`if not ranges`) immediately yields the fallback. -/
def value_for_run (ranges : Option (List GeomEntry)) (run : Int) (fallback : ℚ) : ℚ :=
  match ranges with
  | none => fallback
  | some [] => fallback
  | some entries => valueLoop entries run fallback

/-- Embeds the per-metric resolution expressions of main (lines 242-243):
`override if override is not None else value_for_run(table, run, default)`. -/
def resolve_metric (override : Option ℚ) (ranges : Option (List GeomEntry))
    (run : Int) (fallback : ℚ) : ℚ :=
  match override with
  | some v => v
  | none => value_for_run ranges run fallback

/-- Modelled from the spec: an entry matches a run when its range spec has
exactly two endpoints and the inclusive bounds contain the run. -/
def entryMatches (run : Int) (e : GeomEntry) : Bool :=
  match e.runs with
  | some [s, t] => decide (s ≤ run ∧ run ≤ t)
  | _ => false

/-- Modelled from the spec: the first matching entry of the table, in
table order. -/
def firstMatchingEntry (ranges : Option (List GeomEntry)) (run : Int) :
    Option GeomEntry :=
  match ranges with
  | none => none
  | some entries => entries.find? (entryMatches run)

/-- Modelled from the spec: the first value of `posIdx` that appears
nowhere in the catalog index array. -/
def firstMissing (posIdx indexes : List Int) : Option Int :=
  posIdx.find? (fun v => decide (v ∉ indexes))

/-- A range spec is well formed when it is present and has exactly two
endpoints; value_for_run skips every other shape. -/
def wellFormedRuns (r : Option (List Int)) : Bool :=
  match r with
  | some [_, _] => true
  | _ => false

end ConvertRun

namespace ConvertRun

/-! ## Helper lemmas -/

theorem value_for_run_some (entries : List GeomEntry) (run : Int) (fallback : ℚ) :
    value_for_run (some entries) run fallback = valueLoop entries run fallback := by
  cases entries <;> rfl

theorem valueLoop_eq_firstMatch (entries : List GeomEntry) (run : Int) (fallback : ℚ) :
    valueLoop entries run fallback =
      (match entries.find? (entryMatches run) with
       | some e => e.value.getD fallback
       | none => fallback) := by
  induction entries with
  | nil => rfl
  | cons e rest ih =>
    rcases hr : e.runs with _ | ⟨_ | ⟨s, _ | ⟨t, _ | ⟨u, l3⟩⟩⟩⟩
    · simpa [valueLoop, List.find?, entryMatches, hr] using ih
    · simpa [valueLoop, List.find?, entryMatches, hr] using ih
    · simpa [valueLoop, List.find?, entryMatches, hr] using ih
    · by_cases hc : s ≤ run ∧ run ≤ t
      · simp [valueLoop, List.find?, entryMatches, hr, hc]
      · simpa [valueLoop, List.find?, entryMatches, hr, hc] using ih
    · simpa [valueLoop, List.find?, entryMatches, hr] using ih

/-! ## Claim theorems -/

/-- C1: the spec claims the resolver maps a requested position index to
the FIRST row offset among catalog duplicates; on a catalog whose index
array holds frame index 5 at offsets 2 and 7, requested [5], the code
resolves to offset 7, because the dict comprehension at line 127 lets the
LAST duplicate overwrite the earlier one. -/
theorem c1_duplicate_resolves_to_last_offset :
    dictLookup [0, 1, 5, 3, 4, 6, 7, 5] 5 = some 7 ∧
    resolveRows [0, 1, 5, 3, 4, 6, 7, 5] [5] = .ok [7] ∧
    resolveRows [0, 1, 5, 3, 4, 6, 7, 5] [5] ≠ .ok [2] := by decide

/-- C2: the geometry resolution obeys the priority chain: a present
explicit override always wins; with no override the value of the first
run-range table entry with exactly two inclusive bounds containing the run
wins; with no matching entry the hardcoded default is returned. -/
theorem c2_geometry_priority (ranges : Option (List GeomEntry)) (run : Int)
    (fallback : ℚ) :
    (∀ v, resolve_metric (some v) ranges run fallback = v) ∧
    resolve_metric none ranges run fallback =
      (match firstMatchingEntry ranges run with
       | some e => e.value.getD fallback
       | none => fallback) := by
  refine ⟨fun v => rfl, ?_⟩
  cases ranges with
  | none => rfl
  | some entries =>
    show value_for_run (some entries) run fallback = _
    rw [value_for_run_some, valueLoop_eq_firstMatch]
    rfl

/-- C9: a run-range table entry whose range spec is missing or does not
have exactly two endpoints is skipped without error, and the lookup falls
through to the rest of the table. -/
theorem c9_malformed_entry_skipped (e : GeomEntry) (rest : List GeomEntry)
    (run : Int) (fallback : ℚ) (h : wellFormedRuns e.runs = false) :
    value_for_run (some (e :: rest)) run fallback =
      value_for_run (some rest) run fallback := by
  rw [value_for_run_some, value_for_run_some]
  rcases hr : e.runs with _ | ⟨_ | ⟨s, _ | ⟨t, _ | ⟨u, l3⟩⟩⟩⟩
  · simp [valueLoop, hr]
  · simp [valueLoop, hr]
  · simp [valueLoop, hr]
  · rw [hr] at h; simp [wellFormedRuns] at h
  · simp [valueLoop, hr]

/-- C9 witness: a three-endpoint entry in front of a valid matching entry
is skipped and the valid entry wins. -/
theorem c9_malformed_entry_skipped_witness :
    wellFormedRuns (GeomEntry.mk (some [1, 2, 3]) (some 9)).runs = false ∧
    value_for_run (some [⟨some [1, 2, 3], some 9⟩, ⟨some [0, 10], some 7⟩]) 5 0 =
      value_for_run (some [⟨some [0, 10], some 7⟩]) 5 0 :=
  ⟨by decide, c9_malformed_entry_skipped _ _ 5 0 (by decide)⟩

theorem getD_map {A B : Type} (g : A → B) (l : List A) (da : A) (db : B)
    (hg : g da = db) : ∀ i : Nat, (l.map g).getD i db = g (l.getD i da) := by
  intro i
  induction l generalizing i with
  | nil => simp [hg.symm]
  | cons a as ih =>
    cases i with
    | zero => rfl
    | succ n => simpa using ih n

theorem clampNeg_nonneg (x : ℚ) : 0 ≤ clampNeg x := by
  rw [clampNeg]
  split
  · exact le_refl 0
  · exact le_of_not_lt (by assumption)

theorem getD_get? {F : Type} (l : List F) (i : Nat) (d : F) (h : i < l.length) :
    l.get? i = some (l.getD i d) := by
  rw [List.getD_eq_getElem?_getD, List.get?_eq_getElem?]
  cases hx : l[i]? with
  | none => rw [List.getElem?_eq_none_iff] at hx; omega
  | some x => rfl

theorem hpyTake_nonneg {F : Type} (patterns : List F) (v : Int) (d : F)
    (h0 : 0 ≤ v) (hlt : v < (patterns.length : Int)) :
    hpyTake patterns v = some (patterns.getD v.toNat d) := by
  rw [hpyTake, if_pos h0]
  exact getD_get? patterns v.toNat d (by omega)

theorem hpyGatherGo_ok {F : Type} (d : F) (patterns : List F) (vs : List Int)
    (h : ∀ v ∈ vs, 0 ≤ v ∧ v < (patterns.length : Int)) :
    hpyGatherGo patterns vs = .ok (vs.map (fun v => patterns.getD v.toNat d)) := by
  induction vs with
  | nil => rfl
  | cons v vs ih =>
    obtain ⟨h0, hlt⟩ := h v (List.mem_cons_self v vs)
    rw [hpyGatherGo, hpyTake_nonneg patterns v d h0 hlt,
      ih (fun w hw => h w (List.mem_cons_of_mem v hw))]
    rfl

theorem hpyGather_ok {F : Type} (d : F) (patterns : List F) (vs : List Int)
    (hinc : strictIncr vs = true)
    (h : ∀ v ∈ vs, 0 ≤ v ∧ v < (patterns.length : Int)) :
    hpyGather patterns vs = .ok (vs.map (fun v => patterns.getD v.toNat d)) := by
  rw [hpyGather, if_pos hinc]
  exact hpyGatherGo_ok d patterns vs h

/-- C6: sanitization preserves the shape of the selected array at every
level, clamps exactly the negative entries to zero, leaves non-negative
entries unchanged, and leaves every entry of the output non-negative. -/
theorem c6_sanitize_clamps_negatives (dp : List (List (List ℚ))) :
    (sanitize dp).length = dp.length ∧
    (∀ i, ((sanitize dp).getD i []).length = (dp.getD i []).length) ∧
    (∀ i j, (((sanitize dp).getD i []).getD j []).length =
      ((dp.getD i []).getD j []).length) ∧
    (∀ i j k,
      (((sanitize dp).getD i []).getD j []).getD k 0 =
        (if ((dp.getD i []).getD j []).getD k 0 < 0 then 0
         else ((dp.getD i []).getD j []).getD k 0)) ∧
    (sanitize dp).all
      (fun frame => frame.all (fun row => row.all (fun x => decide (0 ≤ x)))) = true := by
  have h1 : ∀ i, (sanitize dp).getD i [] =
      ((dp.getD i []).map (fun row => row.map clampNeg)) :=
    getD_map _ dp [] [] rfl
  refine ⟨List.length_map dp _, ?_, ?_, ?_, ?_⟩
  · intro i; rw [h1]; exact List.length_map _ _
  · intro i j
    rw [h1, getD_map _ (dp.getD i []) [] [] rfl j]
    exact List.length_map _ _
  · intro i j k
    rw [h1, getD_map _ (dp.getD i []) [] [] rfl j,
      getD_map clampNeg ((dp.getD i []).getD j []) 0 0 rfl k]
    rfl
  · rw [List.all_eq_true]
    intro frame hf
    rw [List.all_eq_true]
    intro row hr
    rw [List.all_eq_true]
    intro x hx
    rw [sanitize] at hf
    obtain ⟨f0, _, rfl⟩ := List.mem_map.mp hf
    obtain ⟨r0, _, rfl⟩ := List.mem_map.mp hr
    obtain ⟨x0, _, rfl⟩ := List.mem_map.mp hx
    exact decide_eq_true (clampNeg_nonneg x0)

/-- C8: the claim (and the spec, and the docstring of export_dp_para,
which promises to select the referenced patterns and order them
accordingly) says identity mode uses requested values directly as row
offsets in requested order, with [0, 2, 1] on a three-row array yielding
rows 0, 2, 1; the code instead fancy-indexes an h5py Dataset, whose
selection requires strictly increasing coordinates, so requested
[0, 2, 1] raises a TypeError; only an increasing request such as
[0, 1, 2] passes through in requested order. -/
theorem c8_unsorted_identity_selection_raises :
    selectPatterns none [(10 : ℚ), 20, 30] [0, 2, 1] = .error .typeError ∧
    selectPatterns none [(10 : ℚ), 20, 30] [0, 2, 1] ≠ .ok [10, 30, 20] ∧
    selectPatterns none [(10 : ℚ), 20, 30] [0, 1, 2] = .ok [10, 20, 30] := by
  decide

/-- C10 counterexample: the claim says a negative requested value in
identity mode is silently mapped to row N + v; on a three-row array,
requested [-1] (with -3 le -1 lt 0) raises an index error instead of
returning the final row. -/
theorem c10_negative_index_counterexample :
    (-(([(10 : ℚ), 20, 30]).length : Int) ≤ -1 ∧ (-1 : Int) < 0) ∧
    selectPatterns none [(10 : ℚ), 20, 30] [-1] = .error .indexError ∧
    selectPatterns none [(10 : ℚ), 20, 30] [-1] ≠ .ok [30] := by
  decide

/-- C10 (amended): in identity mode a negative requested value raises a
fatal indexing error — the request is rejected, never silently mapped to
a row counted from the end of the pattern array (h5py Dataset fancy
selection does not wrap negative coordinates). -/
theorem c10_negative_index_raises {F : Type} (patterns : List F) (v : Int)
    (h : v < 0) :
    selectPatterns none patterns [v] = .error .indexError := by
  have ht : hpyTake patterns v = none := by
    rw [hpyTake, if_neg (by omega)]
  show hpyGather patterns [v] = _
  rw [hpyGather, if_pos (show strictIncr [v] = true from rfl), hpyGatherGo, ht]

/-- C10 witness: requested [-1] on a three-row pattern array raises. -/
theorem c10_negative_index_raises_witness :
    ((-1 : Int) < 0) ∧
    selectPatterns none [(10 : ℚ), 20, 30] [-1] = .error .indexError :=
  ⟨by decide, c10_negative_index_raises [(10 : ℚ), 20, 30] (-1) (by decide)⟩

theorem dictLookup_isSome_iff (indexes : List Int) (v : Int) :
    (dictLookup indexes v).isSome ↔ v ∈ indexes := by
  induction indexes with
  | nil => simp [dictLookup]
  | cons w ws ih =>
    rw [dictLookup]
    cases hd : dictLookup ws v with
    | some j =>
      simp only [Option.isSome_some, true_iff]
      exact List.mem_cons_of_mem w (ih.mp (by rw [hd]; rfl))
    | none =>
      by_cases hw : w = v
      · simp [hw]
      · rw [if_neg hw]
        rw [hd] at ih
        simp only [Option.isSome_none, Bool.false_eq_true, false_iff] at ih ⊢
        intro hc
        rcases List.mem_cons.mp hc with hc | hc
        · exact hw hc.symm
        · exact ih hc

theorem dictLookup_eq_none (indexes : List Int) (v : Int) (h : v ∉ indexes) :
    dictLookup indexes v = none := by
  cases hd : dictLookup indexes v with
  | none => rfl
  | some i =>
    exact absurd ((dictLookup_isSome_iff indexes v).mp (by rw [hd]; rfl)) h

theorem resolveRows_error_of_firstMissing (indexes posIdx : List Int) (w : Int)
    (h : firstMissing posIdx indexes = some w) :
    resolveRows indexes posIdx = .error w := by
  induction posIdx with
  | nil => exact absurd h (by simp [firstMissing])
  | cons v vs ih =>
    by_cases hv : v ∈ indexes
    · have hfind : firstMissing vs indexes = some w := by
        rw [firstMissing] at h ⊢
        rwa [List.find?_cons_of_neg _ (by simpa using hv)] at h
      obtain ⟨i, hi⟩ := Option.isSome_iff_exists.mp
        ((dictLookup_isSome_iff indexes v).mpr hv)
      rw [resolveRows, hi, ih hfind]
    · have hw : w = v := by
        rw [firstMissing] at h
        rw [List.find?_cons_of_pos _ (by simpa using hv)] at h
        exact (Option.some_inj.mp h).symm
      subst hw
      rw [resolveRows, dictLookup_eq_none indexes w hv]

/-- C3: in mapped mode a requested position index absent from the catalog
index array makes the export fail with an error carrying that value, and
no dp or para container is produced. -/
theorem c3_missing_index_fatal (posIdx : List Int) (posX posY : List ℚ)
    (probeUp : List (List (List (List ℂ)))) (obj : List (List ℂ))
    (objAttrs : List (String × ℚ)) (indexes : List Int)
    (patterns : List (List (List ℚ))) (w : Int)
    (h : firstMissing posIdx indexes = some w) :
    exportDpPara posIdx posX posY probeUp obj objAttrs (some indexes) patterns =
      .error (.keyError w) ∧
    w ∈ posIdx ∧ w ∉ indexes ∧
    ∀ out, exportDpPara posIdx posX posY probeUp obj objAttrs (some indexes)
      patterns ≠ .ok out := by
  have hres := resolveRows_error_of_firstMissing indexes posIdx w h
  have h1 : exportDpPara posIdx posX posY probeUp obj objAttrs (some indexes)
      patterns = .error (.keyError w) := by
    rw [exportDpPara, selectPatterns, hres]
  refine ⟨h1, List.mem_of_find?_eq_some h, ?_, ?_⟩
  · have := List.find?_some h
    exact of_decide_eq_true this
  · intro out hc
    rw [h1] at hc
    exact Except.noConfusion hc

/-- C3 witness: requested value 9 absent from catalog [1, 2, 3] makes the
export fail with key error 9. -/
theorem c3_missing_index_fatal_witness :
    firstMissing [2, 9] [1, 2, 3] = some 9 ∧
    exportDpPara [2, 9] [] [] [] [] [] (some [1, 2, 3]) [[[1]], [[2]], [[3]]] =
      .error (.keyError 9) :=
  ⟨by decide,
    (c3_missing_index_fatal [2, 9] [] [] [] [] [] [1, 2, 3]
      [[[1]], [[2]], [[3]]] 9 (by decide)).1⟩

/-- C5: when probe synthesis fails (reading dp[0] of an empty selected
set raises), the engine writes the upstream probe array verbatim in place
of the synthesized probe and the export still completes, producing both
containers. -/
theorem c5_synthesis_fallback (posIdx : List Int) (posX posY : List ℚ)
    (probeUp : List (List (List (List ℂ)))) (obj : List (List ℂ))
    (objAttrs : List (String × ℚ)) (indexes? : Option (List Int))
    (patterns : List (List (List ℚ)))
    (h : selectPatterns indexes? patterns posIdx = .ok []) :
    probeOrFallback (sanitize []) probeUp = probeUp ∧
    exportDpPara posIdx posX posY probeUp obj objAttrs indexes? patterns =
      .ok (⟨[]⟩,
        { object := obj
          objAttrs := copyAttrs objAttrs
          probe := probeUp
          probe_position_indexes := posIdx
          probe_position_x_m := posX
          probe_position_y_m := posY }) := by
  refine ⟨rfl, ?_⟩
  rw [exportDpPara, h]
  rfl

/-- C5 witness: an empty position list selects no frames, synthesis falls
back, and the upstream probe value appears verbatim in the para output. -/
theorem c5_synthesis_fallback_witness :
    selectPatterns none ([] : List (List (List ℚ))) [] = .ok [] ∧
    exportDpPara [] [] [] [[[[Complex.I]]]] [] [] none [] =
      .ok (⟨[]⟩, ⟨[], [], [[[[Complex.I]]]], [], [], []⟩) :=
  ⟨rfl, (c5_synthesis_fallback [] [] [] [[[[Complex.I]]]] [] [] none [] rfl).2⟩

theorem dictLookup_lt_length (indexes : List Int) (v : Int) (i : Nat)
    (h : dictLookup indexes v = some i) : i < indexes.length := by
  induction indexes generalizing i with
  | nil => exact absurd h (by rw [dictLookup]; exact Option.noConfusion)
  | cons w ws ih =>
    rw [dictLookup] at h
    cases hd : dictLookup ws v with
    | some j =>
      rw [hd] at h
      have hj := ih j hd
      have : i = j + 1 := (Option.some_inj.mp h).symm
      subst this
      simpa using Nat.succ_lt_succ hj
    | none =>
      rw [hd] at h
      by_cases hw : w = v
      · rw [if_pos hw] at h
        have : i = 0 := (Option.some_inj.mp h).symm
        subst this
        simp
      · rw [if_neg hw] at h
        exact Option.noConfusion h

theorem dictLookup_get? (indexes : List Int) (v : Int) (i : Nat)
    (h : dictLookup indexes v = some i) : indexes.get? i = some v := by
  induction indexes generalizing i with
  | nil => exact absurd h (by rw [dictLookup]; exact Option.noConfusion)
  | cons w ws ih =>
    rw [dictLookup] at h
    cases hd : dictLookup ws v with
    | some j =>
      rw [hd] at h
      have : i = j + 1 := (Option.some_inj.mp h).symm
      subst this
      simpa using ih j hd
    | none =>
      rw [hd] at h
      by_cases hw : w = v
      · rw [if_pos hw] at h
        have : i = 0 := (Option.some_inj.mp h).symm
        subst this
        simpa using hw
      · rw [if_neg hw] at h
        exact Option.noConfusion h

theorem zip_mem_of_get? {F : Type} (indexes : List Int) (pats : List F) (i : Nat)
    (v : Int) (d : F) (hlen : indexes.length = pats.length)
    (hi : indexes.get? i = some v) : (v, pats.getD i d) ∈ indexes.zip pats := by
  induction indexes generalizing pats i with
  | nil => exact absurd hi (by simp)
  | cons w ws ih =>
    cases pats with
    | nil => exact absurd hlen (by simp)
    | cons q qs =>
      cases i with
      | zero =>
        have : w = v := by simpa using hi
        subst this
        exact List.mem_cons_self _ _
      | succ n =>
        have hi2 : ws.get? n = some v := by simpa using hi
        have hlen2 : ws.length = qs.length := by simpa using hlen
        exact List.mem_cons_of_mem _ (ih qs n hlen2 hi2)

theorem zip_unique {F : Type} (indexes : List Int) (pats : List F)
    (hnd : indexes.Nodup) (v : Int) (f g : F)
    (hf : (v, f) ∈ indexes.zip pats) (hg : (v, g) ∈ indexes.zip pats) : f = g := by
  induction indexes generalizing pats with
  | nil => exact absurd hf (by simp)
  | cons w ws ih =>
    cases pats with
    | nil => exact absurd hf (by simp)
    | cons q qs =>
      have hw : w ∉ ws := (List.nodup_cons.mp hnd).1
      have hnd2 : ws.Nodup := (List.nodup_cons.mp hnd).2
      rcases List.mem_cons.mp hf with hf1 | hf1
      · rcases List.mem_cons.mp hg with hg1 | hg1
        · have h1 : f = q := ((Prod.mk.injEq _ _ _ _).mp hf1).2
          have h2 : g = q := ((Prod.mk.injEq _ _ _ _).mp hg1).2
          rw [h1, h2]
        · have hv : v = w := (Prod.mk.injEq _ _ _ _).mp hf1 |>.1
          subst hv
          exact absurd (List.of_mem_zip hg1).1 hw
      · rcases List.mem_cons.mp hg with hg1 | hg1
        · have hv : v = w := (Prod.mk.injEq _ _ _ _).mp hg1 |>.1
          subst hv
          exact absurd (List.of_mem_zip hf1).1 hw
        · exact ih qs hnd2 hf1 hg1

theorem selected_frame_eq {F : Type} (d : F) (idx1 idx2 : List Int)
    (pats1 pats2 : List F) (hlen1 : idx1.length = pats1.length)
    (hlen2 : idx2.length = pats2.length)
    (hperm : (idx1.zip pats1).Perm (idx2.zip pats2)) (hnd : idx1.Nodup)
    (v : Int) (hv : v ∈ idx1) :
    pats1.getD ((dictLookup idx1 v).getD 0) d =
      pats2.getD ((dictLookup idx2 v).getD 0) d := by
  obtain ⟨i, hi⟩ := Option.isSome_iff_exists.mp
    ((dictLookup_isSome_iff idx1 v).mpr hv)
  have hmem1 : (v, pats1.getD i d) ∈ idx1.zip pats1 :=
    zip_mem_of_get? idx1 pats1 i v d hlen1 (dictLookup_get? idx1 v i hi)
  have hv2 : v ∈ idx2 := (List.of_mem_zip (hperm.mem_iff.mp hmem1)).1
  obtain ⟨i2, hi2⟩ := Option.isSome_iff_exists.mp
    ((dictLookup_isSome_iff idx2 v).mpr hv2)
  have hmem2 : (v, pats2.getD i2 d) ∈ idx1.zip pats1 :=
    hperm.mem_iff.mpr
      (zip_mem_of_get? idx2 pats2 i2 v d hlen2 (dictLookup_get? idx2 v i2 hi2))
  rw [hi, hi2]
  exact zip_unique idx1 pats1 hnd v _ _ hmem1 hmem2

theorem resolveRows_ok (indexes req : List Int) (hres : ∀ v ∈ req, v ∈ indexes) :
    resolveRows indexes req =
      .ok (req.map (fun v => (dictLookup indexes v).getD 0)) := by
  induction req with
  | nil => rfl
  | cons v vs ih =>
    obtain ⟨i, hi⟩ := Option.isSome_iff_exists.mp
      ((dictLookup_isSome_iff indexes v).mpr (hres v (List.mem_cons_self v vs)))
    rw [resolveRows, hi, ih (fun w hw => hres w (List.mem_cons_of_mem v hw))]
    simp [hi]

theorem mapped_select_eq_map {F : Type} (d : F) (indexes : List Int)
    (pats : List F) (req : List Int) (hlen : indexes.length ≤ pats.length)
    (hres : ∀ v ∈ req, v ∈ indexes)
    (hinc : strictIncr (resolvedRows indexes req) = true) :
    selectPatterns (some indexes) pats req =
      .ok (req.map (fun v => pats.getD ((dictLookup indexes v).getD 0) d)) := by
  have hgather := hpyGather_ok d pats (resolvedRows indexes req) hinc
    (by
      intro r hr
      obtain ⟨j, hj, rfl⟩ := List.mem_map.mp hr
      obtain ⟨v, hv, rfl⟩ := List.mem_map.mp hj
      obtain ⟨i, hi⟩ := Option.isSome_iff_exists.mp
        ((dictLookup_isSome_iff indexes v).mpr (hres v hv))
      have := dictLookup_lt_length indexes v i hi
      rw [hi]
      simp only [Option.getD_some, Int.ofNat_eq_coe]
      omega)
  rw [selectPatterns, resolveRows_ok indexes req hres]
  show hpyGather pats (resolvedRows indexes req) = _
  rw [hgather, resolvedRows, List.map_map, List.map_map]
  rfl

/-- C4 (amended): for every well-formed input (every requested index
resolvable, parallel catalog arrays) whose resolved row offsets form a
strictly increasing sequence — the only coordinate lists the h5py-backed
pattern store accepts — the selection succeeds with exactly one frame per
position record, len equal, arranged in position-record order; and when
the catalog index array additionally has no duplicate values, the
selection output is invariant under any permutation of the catalog rows
whose resolved row offsets are also strictly increasing. -/
theorem c4_selection_order_and_perm_invariance {F : Type} (d : F)
    (idx1 : List Int) (pats1 : List F) (req : List Int)
    (hlen1 : idx1.length = pats1.length)
    (hres : ∀ v ∈ req, v ∈ idx1)
    (hs1 : strictIncr (resolvedRows idx1 req) = true) :
    selectPatterns (some idx1) pats1 req =
      .ok (req.map (fun v => pats1.getD ((dictLookup idx1 v).getD 0) d)) ∧
    (req.map (fun v => pats1.getD ((dictLookup idx1 v).getD 0) d)).length =
      req.length ∧
    ∀ idx2 : List Int, ∀ pats2 : List F, idx2.length = pats2.length →
      (idx1.zip pats1).Perm (idx2.zip pats2) → idx1.Nodup →
      strictIncr (resolvedRows idx2 req) = true →
      selectPatterns (some idx1) pats1 req =
        selectPatterns (some idx2) pats2 req := by
  refine ⟨mapped_select_eq_map d idx1 pats1 req (le_of_eq hlen1) hres hs1,
    List.length_map _ _, ?_⟩
  intro idx2 pats2 hlen2 hperm hnd hs2
  have hres2 : ∀ v ∈ req, v ∈ idx2 := by
    intro v hv
    obtain ⟨i, hi⟩ := Option.isSome_iff_exists.mp
      ((dictLookup_isSome_iff idx1 v).mpr (hres v hv))
    have hmem : (v, pats1.getD i d) ∈ idx1.zip pats1 :=
      zip_mem_of_get? idx1 pats1 i v d hlen1 (dictLookup_get? idx1 v i hi)
    exact (List.of_mem_zip (hperm.mem_iff.mp hmem)).1
  rw [mapped_select_eq_map d idx1 pats1 req (le_of_eq hlen1) hres hs1,
    mapped_select_eq_map d idx2 pats2 req (le_of_eq hlen2) hres2 hs2]
  congr 1
  exact List.map_congr_left (fun v hv =>
    selected_frame_eq d idx1 idx2 pats1 pats2 hlen1 hlen2 hperm hnd v (hres v hv))

/-- C4 witness: a duplicate-free two-row catalog with an increasing
resolved-row request, permuted so the resolved row stays a valid
selection, yields the same single frame. -/
theorem c4_selection_order_and_perm_invariance_witness :
    ((∀ v ∈ ([3] : List Int), v ∈ ([3, 5] : List Int)) ∧
      strictIncr (resolvedRows [3, 5] [3]) = true ∧
      ([3, 5] : List Int).Nodup ∧
      strictIncr (resolvedRows [5, 3] [3]) = true ∧
      ([((3 : Int), (10 : ℚ)), (5, 20)]).Perm [(5, 20), (3, 10)]) ∧
    selectPatterns (some [3, 5]) [(10 : ℚ), 20] [3] = .ok [10] ∧
    selectPatterns (some [3, 5]) [(10 : ℚ), 20] [3] =
      selectPatterns (some [5, 3]) [(20 : ℚ), 10] [3] :=
  ⟨⟨by decide, by decide, by decide, by decide, by decide⟩,
    (c4_selection_order_and_perm_invariance 0 [3, 5] [(10 : ℚ), 20] [3]
      (by decide) (by decide) (by decide)).1,
    (c4_selection_order_and_perm_invariance 0 [3, 5] [(10 : ℚ), 20] [3]
      (by decide) (by decide) (by decide)).2.2 [5, 3] [(20 : ℚ), 10]
      (by decide) (by decide) (by decide) (by decide)⟩

/-- C4 counterexample: the claim as stated fails twice over.  With
duplicate catalog index values carrying different frames, a permutation
of the catalog rows changes the selection output (first five conjuncts);
and a well-formed request whose resolved rows are not increasing, such as
requested [5, 3] against catalog [3, 5], raises the h5py TypeError
instead of producing a position-ordered frame set (last conjuncts). -/
theorem c4_perm_invariance_counterexample :
    ([((5 : Int), [[(0 : ℚ)]]), (5, [[1]])]).Perm [(5, [[1]]), (5, [[0]])] ∧
    (5 : Int) ∈ ([5, 5] : List Int) ∧
    selectPatterns (some [5, 5]) [[[(0 : ℚ)]], [[1]]] [5] = .ok [[[1]]] ∧
    selectPatterns (some [5, 5]) [[[(1 : ℚ)]], [[0]]] [5] = .ok [[[0]]] ∧
    selectPatterns (some [5, 5]) [[[(0 : ℚ)]], [[1]]] [5] ≠
      selectPatterns (some [5, 5]) [[[(1 : ℚ)]], [[0]]] [5] ∧
    ((3 : Int) ∈ ([3, 5] : List Int) ∧ (5 : Int) ∈ ([3, 5] : List Int)) ∧
    selectPatterns (some [3, 5]) [[[(10 : ℚ)]], [[20]]] [5, 3] =
      .error .typeError := by decide

theorem getD_map_range {B : Type} (n : Nat) (f : Nat → B) (db : B) (k : Nat) :
    ((List.range n).map f).getD k db = if k < n then f k else db := by
  by_cases h : k < n
  · rw [if_pos h, List.getD_eq_getElem?_getD, List.getElem?_map,
      List.getElem?_range h]
    rfl
  · rw [if_neg h]
    apply List.getD_eq_default
    rw [List.length_map, List.length_range]
    omega

theorem ampOf_length (frame0 : List (List ℚ)) :
    (ampOf frame0).length = frame0.length := List.length_map _ _

theorem ampOf_getD_zero (frame0 : List (List ℚ)) :
    (ampOf frame0).getD 0 [] =
      (frame0.getD 0 []).map (fun (x : ℚ) => Real.sqrt ((x : ℝ) + 1e-12)) :=
  getD_map _ frame0 [] [] rfl 0

theorem ifftshift2_getD_zero_length (frame0 : List (List ℚ)) :
    ((ifftshift2 (0 : ℝ) (ampOf frame0)).getD 0 []).length =
      if 0 < frame0.length then (frame0.getD 0 []).length else 0 := by
  rw [ifftshift2, getD_map_range]
  by_cases h0 : 0 < (ampOf frame0).length
  · rw [if_pos h0, if_pos (by rwa [ampOf_length] at h0), List.length_map,
      List.length_range, ampOf_getD_zero, List.length_map]
  · rw [if_neg h0, if_neg (by rwa [ampOf_length] at h0)]
    rfl

theorem toComplexRows_length (m : List (List ℝ)) :
    (toComplexRows m).length = m.length := List.length_map _ _

theorem toComplexRows_getD_zero (m : List (List ℝ)) :
    (toComplexRows m).getD 0 [] = (m.getD 0 []).map (fun (x : ℝ) => (x : ℂ)) :=
  getD_map _ m [] [] rfl 0

theorem synth_input_length (frame0 : List (List ℚ)) :
    (toComplexRows (ifftshift2 0 (ampOf frame0))).length = frame0.length := by
  rw [toComplexRows_length, ifftshift2, List.length_map, List.length_range,
    ampOf_length]

theorem synth_input_getD_zero_length (frame0 : List (List ℚ)) :
    ((toComplexRows (ifftshift2 0 (ampOf frame0))).getD 0 []).length =
      if 0 < frame0.length then (frame0.getD 0 []).length else 0 := by
  rw [toComplexRows_getD_zero, List.length_map, ifftshift2_getD_zero_length]

/-- C7: the synthesized probe is, by definition, the inverse 2-d discrete
Fourier transform of ifftshift applied to sqrt(frame0 + 1e-12), reshaped
to a 4-d array with two leading singleton axes whose trailing axes have
the height and width of frame0. -/
theorem c7_probe_synthesis_definition (frame0 : List (List ℚ)) :
    probeGuess frame0 = specSynthProbe frame0 ∧
    (probeGuess frame0).length = 1 ∧
    ((probeGuess frame0).getD 0 []).length = 1 ∧
    (((probeGuess frame0).getD 0 []).getD 0 []).length = frame0.length ∧
    ∀ k, ((((probeGuess frame0).getD 0 []).getD 0 []).getD k []).length =
      if k < frame0.length then (frame0.getD 0 []).length else 0 := by
  refine ⟨rfl, rfl, rfl, ?_, ?_⟩
  · show (idft2 (toComplexRows (ifftshift2 0 (ampOf frame0)))).length = _
    rw [idft2, List.length_map, List.length_range, synth_input_length]
  · intro k
    show ((idft2 (toComplexRows (ifftshift2 0 (ampOf frame0)))).getD k []).length = _
    rw [idft2, getD_map_range]
    by_cases hk : k < (toComplexRows (ifftshift2 0 (ampOf frame0))).length
    · have hk2 : k < frame0.length := by rwa [synth_input_length] at hk
      rw [if_pos hk, List.length_map, List.length_range,
        synth_input_getD_zero_length, if_pos hk2,
        if_pos (show 0 < frame0.length by omega)]
    · rw [if_neg hk, if_neg (by rwa [synth_input_length] at hk)]
      rfl

end ConvertRun
